import Mathlib

/-!
Verification of the AIC SDK downloader (build/download_c_libaries.py).

The Python script is embedded shallowly: the configuration parser
(load_platform_config), the hash helpers (calculate_file_hash,
verify_hash), the archive-format dispatch (extract_archive) and the
whole pipeline (download_aic_sdk) become pure Lean functions.  File
system and network effects are made explicit: the file is a list of
lines, the network is a function from URL to result, and the mutable
world (output directory, temporary directories, event counters) is a
record threaded through the pipeline.
-/

namespace AicGn

/-- Characters removed by Python str.strip with no argument:
space, tab, newline, carriage return, vertical tab, form feed. -/
def isPySpace (c : Char) : Bool :=
  c = ' ' || c = '\t' || c = '\n' || c = '\r' || c = '\x0b' || c = '\x0c'

/-- Python str.strip: drop whitespace from both ends (on the character
list of the string). -/
def stripChars (cs : List Char) : List Char :=
  ((cs.dropWhile isPySpace).reverse.dropWhile isPySpace).reverse

/-- Python str.split with a one-character separator: split at every
occurrence, keeping empty groups, with [""] for the empty string. -/
def splitOnChar (sep : Char) : List Char → List (List Char)
  | [] => [[]]
  | c :: cs =>
    if c = sep then [] :: splitOnChar sep cs
    else
      match splitOnChar sep cs with
      | [] => [[c]]
      | g :: gs => (c :: g) :: gs

/-- Python dict lookup (first matching key; keys are unique by construction). -/
def dictGet? {α : Type} (k : String) : List (String × α) → Option α
  | [] => none
  | (k', v) :: rest => if k' = k then some v else dictGet? k rest

/-- Python dict assignment d[k] = v: replace the value in place when the key
is present, append the pair otherwise (insertion order preserved). -/
def dictInsert {α : Type} (k : String) (v : α) : List (String × α) → List (String × α)
  | [] => [(k, v)]
  | (k', v') :: rest => if k' = k then (k, v) :: rest else (k', v') :: dictInsert k v rest

/-- An (archive_ext, hash) pair, the value stored per platform. -/
abbrev PlatformEntry := String × String

/-- The inner dict of load_platform_config: platform triplet to entry. -/
abbrev PlatformMap := List (String × PlatformEntry)

/-- The nested dict returned by load_platform_config:
version to (platform to (archive_ext, hash)). -/
abbrev VersionTable := List (String × PlatformMap)

/-- One parsed data row: (version, platform, archive_ext, hash). -/
abbrev Row := String × String × String × String

/-- The per-line body of the load_platform_config loop: strip the line, skip
it when blank or a comment, otherwise split on tab into exactly two fields
and split the second field on commas into exactly three stripped subfields.
Returns ok none for a skipped line, ok some row for a data row, and the
ValueError message for a malformed row. -/
def parseLine (line : String) : Except String (Option Row) :=
  let l := stripChars line.toList
  if l = [] then Except.ok none
  else if l.head? = some '#' then Except.ok none
  else
    match splitOnChar '\t' l with
    | [p0, p1] =>
      let version := String.mk (stripChars p0)
      let info := stripChars p1
      match (splitOnChar ',' info).map (fun g => String.mk (stripChars g)) with
      | [pt, ext, hv] => Except.ok (some (version, pt, ext, hv))
      | _ => Except.error "Expected format: platform, ext, hash"
    | _ => Except.error "Expected format: version\\tplatform, ext, hash"

/-- True exactly when parseLine raises, that is when a non-blank,
non-comment line has a wrong field count. -/
def isMalformed (line : String) : Bool :=
  match parseLine line with
  | Except.error _ => true
  | Except.ok _ => false

/-- The loop of load_platform_config: lines are numbered from n (the code
starts enumerate at 1 and counts every physical line), each data row is
stored with config[version][platform] = (ext, hash), and the first
malformed line aborts with its line number and the ValueError message. -/
def loadLines : List String → Nat → VersionTable → Except (Nat × String) VersionTable
  | [], _, cfg => Except.ok cfg
  | line :: rest, n, cfg =>
    match parseLine line with
    | Except.error e => Except.error (n, e)
    | Except.ok none => loadLines rest (n + 1) cfg
    | Except.ok (some (v, p, ext, hv)) =>
        loadLines rest (n + 1) (dictInsert v (dictInsert p (ext, hv) ((dictGet? v cfg).getD [])) cfg)

/-- load_platform_config on the file content (the list of its lines, the
existence check having passed): fold the rows into the nested dict. -/
def load_platform_config (lines : List String) : Except (Nat × String) VersionTable :=
  loadLines lines 1 []

/-- Lookup of config[version][platform] as download_aic_sdk performs it. -/
def configLookup (version pt : String) (cfg : VersionTable) : Option PlatformEntry :=
  match dictGet? version cfg with
  | none => none
  | some inner => dictGet? pt inner

/-- The data row carried by a line, when the line parses as one. -/
def dataRow? (line : String) : Option Row :=
  match parseLine line with
  | Except.ok (some r) => some r
  | _ => none

/-- The (ext, hash) of the last data row in file order whose version and
platform are the given ones. -/
def lastEntry (v p : String) : List String → Option PlatformEntry
  | [] => none
  | line :: rest =>
    match lastEntry v p rest with
    | some r => some r
    | none =>
      match dataRow? line with
      | some (v', p', e, h) => if v' = v && p' = p then some (e, h) else none
      | none => none

/-- Index of the last dot in a character list, when there is one. -/
def rfindDotAux : List Char → Option Nat
  | [] => none
  | c :: cs =>
    match rfindDotAux cs with
    | some i => some (i + 1)
    | none => if c = '.' then some 0 else none

/-- Python pathlib suffix of a file name: the substring from the last dot
onwards, except that a dot at index 0 (a leading-dot file) or at the very
end yields the empty suffix.  The Python code applies it to the temporary
path, whose final component is the constructed archive filename. -/
def pathSuffix (name : String) : String :=
  let cs := name.toList
  match rfindDotAux cs with
  | none => ""
  | some i => if 0 < i ∧ i < cs.length - 1 then String.mk (cs.drop i) else ""

/-- The failure taxonomy of the script.  Every raise site in the Python
code raises RuntimeError with a distinct message; each constructor here
is one raise site carrying the data interpolated into its f-string, and
FetchErr.msg renders that exact message. -/
inductive FetchErr where
  | configErr (lineNum : Nat) (reason : String)
  | versionNotFound (version : String) (versionsFile : String)
  | platformNotFound (platformTriplet : String) (version : String)
  | downloadFailed (url : String) (cause : String)
  | integrity (expected : String) (actual : String)
  | unsupportedFormat (archivePath : String)
deriving DecidableEq

/-- The RuntimeError message of each raise site, matching the f-strings of
the Python code.  For unsupportedFormat the code interpolates the full
temporary path; its nondeterministic temporary-directory component is
omitted and only the deterministic final component (the filename) is kept. -/
def FetchErr.msg : FetchErr → String
  | FetchErr.configErr n e => "Error parsing VERSIONS.txt line " ++ toString n ++ ": " ++ e
  | FetchErr.versionNotFound v f => "Version " ++ v ++ " not found in " ++ f
  | FetchErr.platformNotFound p v => "Platform " ++ p ++ " not supported for version " ++ v
  | FetchErr.downloadFailed url c => "Failed to download " ++ url ++ ": " ++ c
  | FetchErr.integrity e a => "Hash verification failed!\nExpected: " ++ e ++ "\nActual:   " ++ a
  | FetchErr.unsupportedFormat p => "Unsupported archive format: " ++ p

/-- The mutable world threaded through the pipeline: the output directory
(existence flag and extracted entries), the number of live scoped
temporary directories, and counters for the download and extraction
events. -/
structure World where
  outDirExists : Bool
  outDirFiles : List String
  tempLive : Nat
  downloadCount : Nat
  extractCount : Nat
deriving DecidableEq

/-- The external collaborators of the script, abstracted: the SHA-256 hex
digest of a byte sequence, the network (URL to downloaded bytes or a
transport failure message), and the entry list an archive library
extracts from the downloaded bytes. -/
structure Env where
  sha256hex : List UInt8 → String
  net : String → Except String (List UInt8)
  archiveEntries : List UInt8 → List String

/-- The archive filename constructed by download_aic_sdk:
aic-sdk-<platform>-<version>.<ext>. -/
def buildFilename (platformTriplet version archiveExt : String) : String :=
  "aic-sdk-" ++ platformTriplet ++ "-" ++ version ++ "." ++ archiveExt

/-- The download URL constructed by download_aic_sdk:
https://github.com/ai-coustics/aic-sdk-c/releases/download/<version>/<filename>. -/
def buildUrl (version platformTriplet archiveExt : String) : String :=
  "https://github.com/ai-coustics/aic-sdk-c/releases/download/" ++ version ++ "/"
    ++ buildFilename platformTriplet version archiveExt

/-- download_file: consult the network at the URL; a transport failure
becomes the RuntimeError of the except branch, success returns the bytes
and counts one completed download. -/
def download_file (env : Env) (url : String) (w : World) :
    Except FetchErr (List UInt8) × World :=
  match env.net url with
  | Except.error c => (Except.error (FetchErr.downloadFailed url c), w)
  | Except.ok bytes => (Except.ok bytes, { w with downloadCount := w.downloadCount + 1 })

/-- verify_hash: compare the computed digest of the downloaded bytes with
the expected one, raising on mismatch with a message showing both. -/
def verify_hash (env : Env) (content : List UInt8) (expectedHash : String) :
    Except FetchErr Unit :=
  let actualHash := env.sha256hex content
  if actualHash = expectedHash then Except.ok ()
  else Except.error (FetchErr.integrity expectedHash actualHash)

/-- extract_archive: dispatch on the filename, zipfile extraction when the
pathlib suffix is ".zip", tarfile extraction when the suffix is ".gz" and
the name ends in ".tar.gz", RuntimeError otherwise.  Extraction writes
the archive entries into the output directory and counts one
extraction. -/
def extract_archive (env : Env) (name : String) (content : List UInt8) (w : World) :
    Except FetchErr Unit × World :=
  if pathSuffix name = ".zip" then
    (Except.ok (), { w with outDirFiles := w.outDirFiles ++ env.archiveEntries content,
                            extractCount := w.extractCount + 1 })
  else if pathSuffix name = ".gz" ∧ ".tar.gz".toList.isSuffixOf name.toList then
    (Except.ok (), { w with outDirFiles := w.outDirFiles ++ env.archiveEntries content,
                            extractCount := w.extractCount + 1 })
  else
    (Except.error (FetchErr.unsupportedFormat name), w)

/-- The with tempfile.TemporaryDirectory() block: a scoped temporary
directory is created, the body runs, and the directory is destroyed when
the block is left, whether the body returned or raised. -/
def withTempDir (w : World) (body : World → Except FetchErr Unit × World) :
    Except FetchErr Unit × World :=
  let wIn := { w with tempLive := w.tempLive + 1 }
  let res := body wIn
  (res.1, { res.2 with tempLive := res.2.tempLive - 1 })

/-- The body of the with tempfile.TemporaryDirectory() block of
download_aic_sdk: download the archive, verify its hash, extract it.
Each raise leaves the block early. -/
def fetchBody (env : Env) (url filename expectedHash : String) (w : World) :
    Except FetchErr Unit × World :=
  match download_file env url w with
  | (Except.error e, w3) => (Except.error e, w3)
  | (Except.ok bytes, w3) =>
    match verify_hash env bytes expectedHash with
    | Except.error e => (Except.error e, w3)
    | Except.ok _ => extract_archive env filename bytes w3

/-- download_aic_sdk: load the configuration, look up version then
platform, build the URL, create the output directory (parents included,
exist_ok), then inside a scoped temporary directory download, verify the
hash and extract.  Exceptions propagate; the temporary directory is
destroyed on every exit path of the with block. -/
def download_aic_sdk (env : Env) (version platformTriplet versionsFile : String)
    (lines : List String) (w : World) : Except FetchErr Unit × World :=
  match load_platform_config lines with
  | Except.error (n, e) => (Except.error (FetchErr.configErr n e), w)
  | Except.ok config =>
    match dictGet? version config with
    | none => (Except.error (FetchErr.versionNotFound version versionsFile), w)
    | some inner =>
      match dictGet? platformTriplet inner with
      | none => (Except.error (FetchErr.platformNotFound platformTriplet version), w)
      | some (archiveExt, expectedHash) =>
        let filename := buildFilename platformTriplet version archiveExt
        let url := buildUrl version platformTriplet archiveExt
        let w1 := { w with outDirExists := true }
        withTempDir w1 (fetchBody env url filename expectedHash)

/-- The chunking of the read loop of calculate_file_hash with chunk size
k + 1: each f.read returns the next at most k + 1 bytes, and the loop
stops at the empty read. -/
def chunksAux (k : Nat) : List UInt8 → List (List UInt8)
  | [] => []
  | c :: cs => (c :: cs.take k) :: chunksAux k (cs.drop k)
termination_by l => l.length
decreasing_by simp [List.length_drop]; omega

/-- The sequence of chunks iter(lambda: f.read(n), b"") yields on a file
whose content is the given bytes, for a positive read size n. -/
def readChunks (n : Nat) (content : List UInt8) : List (List UInt8) :=
  chunksAux (n - 1) content

/-- One hashlib update call: the digest state absorbs the bytes of the
chunk in order (the hashlib streaming interface consumes its input byte
sequence sequentially into its internal state, abstracted as step). -/
def hashUpdate {σ : Type} (step : σ → UInt8 → σ) (s : σ) (chunk : List UInt8) : σ :=
  chunk.foldl step s

/-- calculate_file_hash: fold the hashlib update over the 4096-byte chunks
of the file content, then render the hex digest. -/
def calculate_file_hash {σ : Type} (step : σ → UInt8 → σ) (hexdigest : σ → String)
    (init : σ) (content : List UInt8) : String :=
  hexdigest ((readChunks 4096 content).foldl (hashUpdate step) init)

/-- Modelled from the spec, for the refinement claim C10: the SHA-256
digest of the entire byte content hashed in one pass, with the same
abstract digest-state interface. -/
def sha256OnePass {σ : Type} (step : σ → UInt8 → σ) (hexdigest : σ → String)
    (init : σ) (content : List UInt8) : String :=
  hexdigest (content.foldl step init)

theorem dictGet?_insert_self {α : Type} (k : String) (v : α) (l : List (String × α)) :
    dictGet? k (dictInsert k v l) = some v := by
  induction l with
  | nil => simp [dictGet?, dictInsert]
  | cons kv rest ih =>
    obtain ⟨k', v'⟩ := kv
    by_cases h : k' = k
    · simp [dictGet?, dictInsert, h]
    · simp [dictGet?, dictInsert, h, ih]

theorem dictGet?_insert_ne {α : Type} (k k' : String) (v : α) (l : List (String × α))
    (h : k' ≠ k) : dictGet? k (dictInsert k' v l) = dictGet? k l := by
  induction l with
  | nil => simp [dictGet?, dictInsert, h]
  | cons kv rest ih =>
    obtain ⟨k₀, v₀⟩ := kv
    by_cases h0 : k₀ = k'
    · subst h0
      simp [dictGet?, dictInsert, h]
    · by_cases h1 : k₀ = k
      · simp [dictGet?, dictInsert, h0, h1, Ne.symm h]
      · simp [dictGet?, dictInsert, h0, h1, ih]

/-- First-some choice on options, used to state how later rows shadow
earlier ones. -/
def optOr {α : Type} : Option α → Option α → Option α
  | some a, _ => some a
  | none, b => b

/-- Per-line consistency used to state claim C4: when the line is a data
row for the pair (v, p), its entry is (e, c). -/
def rowConsistent (v p e c : String) (line : String) : Bool :=
  match dataRow? line with
  | some (v', p', e', c') => !(v' = v && p' = p) || (e' = e && c' = c)
  | none => true

theorem configLookup_insertRow (v p e h vq pq : String) (cfg : VersionTable) :
    configLookup vq pq (dictInsert v (dictInsert p (e, h) ((dictGet? v cfg).getD [])) cfg)
      = if v = vq && p = pq then some (e, h) else configLookup vq pq cfg := by
  by_cases hv : v = vq
  · subst hv
    by_cases hp : p = pq
    · subst hp
      simp [configLookup, dictGet?_insert_self]
    · rw [if_neg (by simp [hp])]
      simp only [configLookup, dictGet?_insert_self]
      rw [dictGet?_insert_ne pq p _ _ hp]
      cases hg : dictGet? v cfg with
      | none => simp [hg, dictGet?]
      | some inner => simp [hg]
  · rw [if_neg (by simp [hv])]
    simp only [configLookup]
    rw [dictGet?_insert_ne vq v _ _ hv]

theorem loadLines_ok_lookup (lines : List String) :
    ∀ (n : Nat) (cfg : VersionTable),
      (∀ line ∈ lines, isMalformed line = false) →
      ∃ cfg', loadLines lines n cfg = Except.ok cfg' ∧
        ∀ v p, configLookup v p cfg' = optOr (lastEntry v p lines) (configLookup v p cfg) := by
  induction lines with
  | nil =>
    intro n cfg _
    exact ⟨cfg, rfl, fun v p => by simp [lastEntry, optOr]⟩
  | cons line rest ih =>
    intro n cfg hok
    have hline : isMalformed line = false := hok line (by simp)
    have hrest : ∀ l ∈ rest, isMalformed l = false := fun l hl => hok l (by simp [hl])
    cases hp : parseLine line with
    | error e =>
      rw [isMalformed, hp] at hline
      cases hline
    | ok row =>
      cases row with
      | none =>
        obtain ⟨cfg', h1, h2⟩ := ih (n + 1) cfg hrest
        refine ⟨cfg', by rw [loadLines, hp]; exact h1, ?_⟩
        intro v p
        rw [h2 v p]
        simp only [lastEntry, dataRow?, hp]
        cases lastEntry v p rest <;> simp [optOr]
      | some r =>
        obtain ⟨v0, p0, e0, h0⟩ := r
        obtain ⟨cfg', h1, h2⟩ :=
          ih (n + 1) (dictInsert v0 (dictInsert p0 (e0, h0) ((dictGet? v0 cfg).getD [])) cfg) hrest
        refine ⟨cfg', by rw [loadLines, hp]; exact h1, ?_⟩
        intro v p
        rw [h2 v p, configLookup_insertRow]
        simp only [lastEntry, dataRow?, hp]
        cases lastEntry v p rest with
        | some r' => simp [optOr]
        | none =>
          by_cases hkey : v0 = v ∧ p0 = p
          · obtain ⟨hk1, hk2⟩ := hkey
            simp [optOr, hk1, hk2]
          · simp [optOr, hkey]

theorem lastEntry_some_mem (v p : String) (lines : List String) (r : PlatformEntry)
    (h : lastEntry v p lines = some r) :
    ∃ line ∈ lines, dataRow? line = some (v, p, r.1, r.2) := by
  induction lines with
  | nil => cases h
  | cons line rest ih =>
    rw [lastEntry] at h
    cases hrest : lastEntry v p rest with
    | some r' =>
      simp only [hrest] at h
      obtain ⟨l, hl, hrow⟩ := ih (hrest.trans h)
      exact ⟨l, List.mem_cons_of_mem _ hl, hrow⟩
    | none =>
      simp only [hrest] at h
      cases hrow : dataRow? line with
      | none =>
        simp only [hrow] at h
        cases h
      | some r0 =>
        obtain ⟨v', p', e', c'⟩ := r0
        simp only [hrow] at h
        by_cases hkey : v' = v ∧ p' = p
        · obtain ⟨hkv, hkp⟩ := hkey
          rw [if_pos (by simp [hkv, hkp])] at h
          cases h
          exact ⟨line, List.mem_cons_self _ _, by rw [hrow, hkv, hkp]⟩
        · rw [if_neg (by simpa using hkey)] at h
          cases h

theorem lastEntry_isSome_of_mem (v p e c : String) (lines : List String)
    (h : ∃ line ∈ lines, dataRow? line = some (v, p, e, c)) :
    (lastEntry v p lines).isSome = true := by
  induction lines with
  | nil => obtain ⟨l, hl, _⟩ := h; cases hl
  | cons line rest ih =>
    rw [lastEntry]
    cases hrest : lastEntry v p rest with
    | some r' => rfl
    | none =>
      obtain ⟨l, hl, hrow⟩ := h
      rcases List.mem_cons.mp hl with hl0 | hl1
      · subst hl0
        simp only [hrow]
        simp
      · have hsome := ih ⟨l, hl1, hrow⟩
        rw [hrest] at hsome
        cases hsome

theorem strToList_append (a b : String) : (a ++ b).toList = a.toList ++ b.toList := by
  cases a
  cases b
  rfl

theorem loadLines_error_of_malformed (lines : List String) :
    ∀ (n : Nat) (cfg : VersionTable),
      (∃ line ∈ lines, isMalformed line = true) →
      ∃ m e, loadLines lines n cfg = Except.error (m, e) ∧
        n ≤ m ∧ m - n < lines.length ∧ isMalformed (lines.getD (m - n) "") = true := by
  induction lines with
  | nil =>
    intro n cfg h
    obtain ⟨l, hl, _⟩ := h
    cases hl
  | cons line rest ih =>
    intro n cfg h
    cases hp : parseLine line with
    | error e =>
      refine ⟨n, e, by rw [loadLines, hp], Nat.le_refl n, by simp, ?_⟩
      simp [isMalformed, hp]
    | ok row =>
      have hline : isMalformed line = false := by simp [isMalformed, hp]
      have hrest : ∃ l ∈ rest, isMalformed l = true := by
        obtain ⟨l, hl, hbad⟩ := h
        rcases List.mem_cons.mp hl with h0 | h1
        · subst h0
          rw [hline] at hbad
          cases hbad
        · exact ⟨l, h1, hbad⟩
      cases row with
      | none =>
        obtain ⟨m, e, h1, h2, h3, h4⟩ := ih (n + 1) cfg hrest
        refine ⟨m, e, by rw [loadLines, hp]; exact h1, Nat.le_of_succ_le h2, ?_, ?_⟩
        · simp only [List.length_cons]
          omega
        · have hmn : m - n = (m - (n + 1)) + 1 := by omega
          rw [hmn]
          simpa using h4
      | some r =>
        obtain ⟨v0, p0, e0, h0⟩ := r
        obtain ⟨m, e, h1, h2, h3, h4⟩ := ih (n + 1)
          (dictInsert v0 (dictInsert p0 (e0, h0) ((dictGet? v0 cfg).getD [])) cfg) hrest
        refine ⟨m, e, by rw [loadLines, hp]; exact h1, Nat.le_of_succ_le h2, ?_, ?_⟩
        · simp only [List.length_cons]
          omega
        · have hmn : m - n = (m - (n + 1)) + 1 := by omega
          rw [hmn]
          simpa using h4

/-- C5: a configuration file with a non-blank, non-comment row of wrong
field count (not two tab fields, or a second field without three comma
subfields, exactly the cases where parseLine raises) makes the load fail,
the reported line number is the physical line number of an offending row
(the first one), and the rendered ConfigError message contains that line
number. -/
theorem config_error_names_offending_line (lines : List String)
    (hbad : ∃ line ∈ lines, isMalformed line = true) :
    ∃ m e, load_platform_config lines = Except.error (m, e) ∧
      1 ≤ m ∧ m - 1 < lines.length ∧ isMalformed (lines.getD (m - 1) "") = true ∧
      (toString m).toList <:+: ((FetchErr.configErr m e).msg).toList := by
  obtain ⟨m, e, h1, h2, h3, h4⟩ := loadLines_error_of_malformed lines 1 [] hbad
  refine ⟨m, e, h1, h2, h3, h4, ?_⟩
  refine ⟨("Error parsing VERSIONS.txt line ").toList, (": " ++ e).toList, ?_⟩
  simp only [FetchErr.msg, strToList_append, List.append_assoc]

/-- Witness for C5 at a concrete file: the single line has two tab fields
but only one comma subfield, so the load reports line 1. -/
theorem config_error_names_offending_line_witness :
    ∃ m e, load_platform_config ["1.0.0\tonly-one-subfield"] = Except.error (m, e) ∧
      1 ≤ m ∧ m - 1 < (["1.0.0\tonly-one-subfield"] : List String).length ∧
      isMalformed ((["1.0.0\tonly-one-subfield"] : List String).getD (m - 1) "") = true ∧
      (toString m).toList <:+: ((FetchErr.configErr m e).msg).toList :=
  config_error_names_offending_line ["1.0.0\tonly-one-subfield"]
    ⟨"1.0.0\tonly-one-subfield", by simp, by decide⟩

/-- C4: for a well-formed configuration file (every line parses; the rows
carrying the pair (v, p) all record the same entry, as a file with one
row per pair does), loading succeeds and looking the pair up returns
exactly the recorded (extension, checksum). -/
theorem load_then_lookup_exact (lines : List String) (v p e c : String)
    (hok : ∀ line ∈ lines, isMalformed line = false)
    (hmem : ∃ line ∈ lines, dataRow? line = some (v, p, e, c))
    (hcons : ∀ line ∈ lines, rowConsistent v p e c line = true) :
    ∃ cfg, load_platform_config lines = Except.ok cfg ∧
      configLookup v p cfg = some (e, c) := by
  obtain ⟨cfg, h1, h2⟩ := loadLines_ok_lookup lines 1 [] hok
  refine ⟨cfg, h1, ?_⟩
  rw [h2 v p]
  have hsome : (lastEntry v p lines).isSome = true :=
    lastEntry_isSome_of_mem v p e c lines hmem
  obtain ⟨r, hr⟩ := Option.isSome_iff_exists.mp hsome
  obtain ⟨r1, r2⟩ := r
  obtain ⟨l, hl, hrow⟩ := lastEntry_some_mem v p lines (r1, r2) hr
  have hc := hcons l hl
  simp only [rowConsistent, hrow] at hc
  simp at hc
  obtain ⟨he, hc2⟩ := hc
  rw [hr, he, hc2]
  rfl

/-- Witness for C4 at the scenario of the spec: one row for version 1.0.0
and platform x86_64-unknown-linux-gnu with extension tar.gz and the
SHA-256 of the string hello. -/
theorem load_then_lookup_exact_witness :
    ∃ cfg,
      load_platform_config
        ["1.0.0\tx86_64-unknown-linux-gnu, tar.gz, 2cf24dba5fb0a30e26e83b2ac5b9e29e1b161e5c1fa7425e73043362938b9824"]
        = Except.ok cfg ∧
      configLookup "1.0.0" "x86_64-unknown-linux-gnu" cfg
        = some ("tar.gz", "2cf24dba5fb0a30e26e83b2ac5b9e29e1b161e5c1fa7425e73043362938b9824") :=
  load_then_lookup_exact _ "1.0.0" "x86_64-unknown-linux-gnu" "tar.gz"
    "2cf24dba5fb0a30e26e83b2ac5b9e29e1b161e5c1fa7425e73043362938b9824"
    (by decide) (by decide) (by decide)

/-- C9: on a file whose rows all parse, loading never fails even when a
(version, platform) pair repeats, and every lookup returns the entry of
the last data row in file order for the pair, the earlier rows being
silently overwritten by the dict assignment. -/
theorem duplicate_rows_last_wins (lines : List String)
    (hok : ∀ line ∈ lines, isMalformed line = false) :
    ∃ cfg, load_platform_config lines = Except.ok cfg ∧
      ∀ v p, configLookup v p cfg = lastEntry v p lines := by
  obtain ⟨cfg, h1, h2⟩ := loadLines_ok_lookup lines 1 [] hok
  refine ⟨cfg, h1, fun v p => ?_⟩
  rw [h2 v p]
  cases lastEntry v p lines <;> simp [optOr, configLookup, dictGet?]

/-- Witness for C9 at a concrete file with two rows for the same pair:
the loaded table holds the entry of the second row. -/
theorem duplicate_rows_last_wins_witness :
    (∃ cfg,
      load_platform_config ["1.0.0\tx, tar.gz, aaa", "1.0.0\tx, zip, bbb"] = Except.ok cfg ∧
      ∀ v p, configLookup v p cfg
        = lastEntry v p ["1.0.0\tx, tar.gz, aaa", "1.0.0\tx, zip, bbb"]) ∧
    lastEntry "1.0.0" "x" ["1.0.0\tx, tar.gz, aaa", "1.0.0\tx, zip, bbb"]
      = some ("zip", "bbb") :=
  ⟨duplicate_rows_last_wins _ (by decide), by decide⟩

theorem isSuffixOf_iff_suffix (a b : List Char) : a.isSuffixOf b = true ↔ a <:+ b := by
  constructor
  · intro h
    rw [List.isSuffixOf] at h
    exact List.reverse_prefix.mp (List.isPrefixOf_iff_prefix.mp h)
  · intro h
    rw [List.isSuffixOf]
    exact List.isPrefixOf_iff_prefix.mpr (List.reverse_prefix.mpr h)

theorem suffix_of_pathSuffix_eq (name s : String) (h : pathSuffix name = s)
    (hs : s.toList ≠ []) : s.toList <:+ name.toList := by
  simp only [pathSuffix] at h
  cases hf : rfindDotAux name.toList with
  | none =>
    simp only [hf] at h
    exact absurd (by rw [← h]; rfl) hs
  | some i =>
    simp only [hf] at h
    by_cases hc : 0 < i ∧ i < name.toList.length - 1
    · rw [if_pos hc] at h
      rw [← h]
      exact List.drop_suffix i name.toList
    · rw [if_neg hc] at h
      exact absurd (by rw [← h]; rfl) hs

/-- C7: format detection of extract_archive is by filename alone: when
extraction is dispatched (no UnsupportedFormatError), the name ends in
.zip or in .tar.gz; and for a name ending in neither, a missing suffix
and a bare .gz included, the call raises UnsupportedFormatError. -/
theorem extract_archive_format_detection (env : Env) (name : String)
    (content : List UInt8) (w : World) :
    ((extract_archive env name content w).1 = Except.ok () →
      ".zip".toList <:+ name.toList ∨ ".tar.gz".toList <:+ name.toList) ∧
    ((¬ ".zip".toList <:+ name.toList) → (¬ ".tar.gz".toList <:+ name.toList) →
      (extract_archive env name content w).1
        = Except.error (FetchErr.unsupportedFormat name)) := by
  constructor
  · intro hok
    by_cases h1 : pathSuffix name = ".zip"
    · exact Or.inl (suffix_of_pathSuffix_eq name ".zip" h1 (by decide))
    · by_cases h2 : pathSuffix name = ".gz" ∧ ".tar.gz".toList.isSuffixOf name.toList = true
      · exact Or.inr ((isSuffixOf_iff_suffix _ _).mp h2.2)
      · rw [extract_archive, if_neg h1, if_neg h2] at hok
        cases hok
  · intro hz ht
    have h1 : pathSuffix name ≠ ".zip" := fun hh =>
      hz (suffix_of_pathSuffix_eq name ".zip" hh (by decide))
    have h2 : ¬(pathSuffix name = ".gz" ∧ ".tar.gz".toList.isSuffixOf name.toList = true) :=
      fun hh => ht ((isSuffixOf_iff_suffix _ _).mp hh.2)
    rw [extract_archive, if_neg h1, if_neg h2]

/-- Witness for C7: a bare .gz name that is not .tar.gz is rejected with
UnsupportedFormatError. -/
theorem extract_archive_format_detection_witness :
    (extract_archive
      { sha256hex := fun _ => "", net := fun _ => Except.error "",
        archiveEntries := fun _ => [] }
      "aic-sdk-x-1.0.0.gz" [] ⟨false, [], 0, 0, 0⟩).1
      = Except.error (FetchErr.unsupportedFormat "aic-sdk-x-1.0.0.gz") :=
  (extract_archive_format_detection _ _ _ _).2 (by decide) (by decide)

theorem download_file_tempLive (env : Env) (url : String) (w : World) :
    (download_file env url w).2.tempLive = w.tempLive := by
  cases hnet : env.net url with
  | error c => simp [download_file, hnet]
  | ok bytes => simp [download_file, hnet]

theorem extract_archive_tempLive (env : Env) (name : String) (content : List UInt8)
    (w : World) : (extract_archive env name content w).2.tempLive = w.tempLive := by
  rw [extract_archive]
  split
  · rfl
  · split
    · rfl
    · rfl

theorem fetchBody_tempLive (env : Env) (url filename expectedHash : String) (w : World) :
    (fetchBody env url filename expectedHash w).2.tempLive = w.tempLive := by
  have hdl := download_file_tempLive env url w
  rw [fetchBody]
  rcases hd : download_file env url w with ⟨r, w3⟩
  rw [hd] at hdl
  cases r with
  | error e => simpa using hdl
  | ok bytes =>
    cases hv : verify_hash env bytes expectedHash with
    | error e =>
      simp only [hv]
      simpa using hdl
    | ok u =>
      simp only [hv]
      rw [extract_archive_tempLive]
      simpa using hdl

/-- C8: on every exit path of download_aic_sdk, success or failure at any
stage (configuration, lookup, download, hash verification, extraction),
the number of live scoped temporary directories in the final world equals
the number before the call: the with block destroys the temporary
directory it created. -/
theorem temp_dir_always_deleted (env : Env) (version platformTriplet versionsFile : String)
    (lines : List String) (w : World) :
    (download_aic_sdk env version platformTriplet versionsFile lines w).2.tempLive
      = w.tempLive := by
  cases hload : load_platform_config lines with
  | error pe =>
    obtain ⟨n, e⟩ := pe
    simp [download_aic_sdk, hload]
  | ok config =>
    cases hv : dictGet? version config with
    | none => simp [download_aic_sdk, hload, hv]
    | some inner =>
      cases hp : dictGet? platformTriplet inner with
      | none => simp [download_aic_sdk, hload, hv, hp]
      | some pe =>
        obtain ⟨ext, hash⟩ := pe
        simp [download_aic_sdk, hload, hv, hp, withTempDir, fetchBody_tempLive]

/-- C6: an absent version, or an absent platform under a present version,
stops download_aic_sdk with the corresponding NotFoundError and the world
untouched, before any download (the download counter in particular is
unchanged); and the two messages are distinct for all arguments. -/
theorem not_found_before_download (env : Env) (version platformTriplet versionsFile : String)
    (lines : List String) (w : World) (config : VersionTable)
    (hload : load_platform_config lines = Except.ok config) :
    (dictGet? version config = none →
      download_aic_sdk env version platformTriplet versionsFile lines w
        = (Except.error (FetchErr.versionNotFound version versionsFile), w)) ∧
    (∀ inner, dictGet? version config = some inner →
      dictGet? platformTriplet inner = none →
      download_aic_sdk env version platformTriplet versionsFile lines w
        = (Except.error (FetchErr.platformNotFound platformTriplet version), w)) ∧
    (∀ v1 f1 p2 v2, (FetchErr.versionNotFound v1 f1).msg
      ≠ (FetchErr.platformNotFound p2 v2).msg) := by
  refine ⟨?_, ?_, ?_⟩
  · intro hv
    simp only [download_aic_sdk, hload, hv]
  · intro inner hv hp
    simp only [download_aic_sdk, hload, hv, hp]
  · intro v1 f1 p2 v2 hne
    have h1 : ((FetchErr.versionNotFound v1 f1).msg).toList.head? = some 'V' := by
      simp only [FetchErr.msg, strToList_append]
      rfl
    have h2 : ((FetchErr.platformNotFound p2 v2).msg).toList.head? = some 'P' := by
      simp only [FetchErr.msg, strToList_append]
      rfl
    rw [hne, h2] at h1
    cases h1

/-- Witness for C6 at the scenario of the spec: version 9.9.9 is absent
from a one-row file, the call fails with the version message and the
world ⟨false, [], 0, 0, 0⟩ is returned unchanged. -/
theorem not_found_before_download_witness :
    download_aic_sdk
      { sha256hex := fun _ => "", net := fun _ => Except.error "offline",
        archiveEntries := fun _ => [] }
      "9.9.9" "x86_64-unknown-linux-gnu" "VERSIONS.txt"
      ["1.0.0\tx86_64-unknown-linux-gnu, tar.gz, aaa"] ⟨false, [], 0, 0, 0⟩
      = (Except.error (FetchErr.versionNotFound "9.9.9" "VERSIONS.txt"),
         ⟨false, [], 0, 0, 0⟩) :=
  (not_found_before_download
    { sha256hex := fun _ => "", net := fun _ => Except.error "offline",
      archiveEntries := fun _ => [] }
    "9.9.9" "x86_64-unknown-linux-gnu" "VERSIONS.txt"
    ["1.0.0\tx86_64-unknown-linux-gnu, tar.gz, aaa"] ⟨false, [], 0, 0, 0⟩
    [("1.0.0", [("x86_64-unknown-linux-gnu", ("tar.gz", "aaa"))])] rfl).1 rfl

theorem integrity_msg_reports_expected (e a : String) :
    e.toList <:+: ((FetchErr.integrity e a).msg).toList := by
  refine ⟨("Hash verification failed!\nExpected: ").toList, ("\nActual:   " ++ a).toList, ?_⟩
  simp only [FetchErr.msg, strToList_append, List.append_assoc]

theorem integrity_msg_reports_actual (e a : String) :
    a.toList <:+: ((FetchErr.integrity e a).msg).toList := by
  refine ⟨("Hash verification failed!\nExpected: " ++ e ++ "\nActual:   ").toList, [], ?_⟩
  simp only [FetchErr.msg, strToList_append, List.append_assoc, List.append_nil]

/-- C1: when the pipeline reaches a downloaded byte sequence whose
computed digest differs from the checksum the table records for the
requested version and platform, the call fails with IntegrityError, the
extraction counter is untouched (extraction never ran), and the message
reports both the expected and the actual hash. -/
theorem download_aic_sdk_integrity (env : Env)
    (version platformTriplet versionsFile : String) (lines : List String) (w : World)
    (config : VersionTable) (inner : PlatformMap) (archiveExt expectedHash : String)
    (bytes : List UInt8)
    (hload : load_platform_config lines = Except.ok config)
    (hv : dictGet? version config = some inner)
    (hp : dictGet? platformTriplet inner = some (archiveExt, expectedHash))
    (hnet : env.net (buildUrl version platformTriplet archiveExt) = Except.ok bytes)
    (hmism : env.sha256hex bytes ≠ expectedHash) :
    (download_aic_sdk env version platformTriplet versionsFile lines w).1
      = Except.error (FetchErr.integrity expectedHash (env.sha256hex bytes)) ∧
    (download_aic_sdk env version platformTriplet versionsFile lines w).2.extractCount
      = w.extractCount ∧
    expectedHash.toList
      <:+: ((FetchErr.integrity expectedHash (env.sha256hex bytes)).msg).toList ∧
    (env.sha256hex bytes).toList
      <:+: ((FetchErr.integrity expectedHash (env.sha256hex bytes)).msg).toList := by
  have hstep : download_aic_sdk env version platformTriplet versionsFile lines w
      = (Except.error (FetchErr.integrity expectedHash (env.sha256hex bytes)),
         { outDirExists := true, outDirFiles := w.outDirFiles,
           tempLive := w.tempLive + 1 - 1, downloadCount := w.downloadCount + 1,
           extractCount := w.extractCount }) := by
    simp only [download_aic_sdk, hload, hv, hp, withTempDir, fetchBody, download_file, hnet,
      verify_hash, if_neg hmism]
  rw [hstep]
  exact ⟨rfl, rfl, integrity_msg_reports_expected _ _, integrity_msg_reports_actual _ _⟩

/-- Concrete environment for the C1 witness: every download returns the
two bytes hi, whose modelled digest is deadbeef, while the configuration
expects realhash. -/
def envC1 : Env :=
  { sha256hex := fun _ => "deadbeef", net := fun _ => Except.ok [104, 105],
    archiveEntries := fun _ => ["lib"] }

/-- Witness for C1 at a concrete run: the mismatch raises IntegrityError,
extraction never runs, and the message holds both hashes. -/
theorem download_aic_sdk_integrity_witness :
    (download_aic_sdk envC1 "1.0.0" "x" "VERSIONS.txt" ["1.0.0\tx, tar.gz, realhash"]
      ⟨false, [], 0, 0, 0⟩).1
      = Except.error (FetchErr.integrity "realhash" "deadbeef") ∧
    (download_aic_sdk envC1 "1.0.0" "x" "VERSIONS.txt" ["1.0.0\tx, tar.gz, realhash"]
      ⟨false, [], 0, 0, 0⟩).2.extractCount = (⟨false, [], 0, 0, 0⟩ : World).extractCount ∧
    "realhash".toList <:+: ((FetchErr.integrity "realhash" "deadbeef").msg).toList ∧
    "deadbeef".toList <:+: ((FetchErr.integrity "realhash" "deadbeef").msg).toList :=
  download_aic_sdk_integrity envC1 "1.0.0" "x" "VERSIONS.txt"
    ["1.0.0\tx, tar.gz, realhash"] ⟨false, [], 0, 0, 0⟩
    [("1.0.0", [("x", ("tar.gz", "realhash"))])] [("x", ("tar.gz", "realhash"))]
    "tar.gz" "realhash" [104, 105] rfl rfl rfl rfl (by decide)

theorem download_file_world (env : Env) (url : String) (w : World) :
    (download_file env url w).2.outDirFiles = w.outDirFiles ∧
    (download_file env url w).2.extractCount = w.extractCount ∧
    (download_file env url w).2.outDirExists = w.outDirExists := by
  cases hnet : env.net url <;> simp [download_file, hnet]

theorem fetchBody_error_world (env : Env) (url filename expectedHash : String) (w : World)
    (err : FetchErr)
    (h : (fetchBody env url filename expectedHash w).1 = Except.error err) :
    (fetchBody env url filename expectedHash w).2.outDirFiles = w.outDirFiles ∧
    (fetchBody env url filename expectedHash w).2.extractCount = w.extractCount ∧
    (fetchBody env url filename expectedHash w).2.outDirExists = w.outDirExists := by
  have hdw := download_file_world env url w
  rw [fetchBody] at h ⊢
  rcases hd : download_file env url w with ⟨r, w3⟩
  rw [hd] at hdw h
  cases r with
  | error e0 => simpa using hdw
  | ok bytes =>
    cases hv : verify_hash env bytes expectedHash with
    | error e0 =>
      simp only [hv]
      simpa using hdw
    | ok u =>
      simp only [hv] at h ⊢
      rw [extract_archive] at h ⊢
      by_cases h1 : pathSuffix filename = ".zip"
      · rw [if_pos h1] at h
        cases h
      · rw [if_neg h1] at h ⊢
        by_cases h2 : pathSuffix filename = ".gz"
            ∧ ".tar.gz".toList.isSuffixOf filename.toList = true
        · rw [if_pos h2] at h
          cases h
        · rw [if_neg h2]
          simpa using hdw

/-- C3 amended: when download_aic_sdk fails with IntegrityError or
UnsupportedFormatError, no file is written into the output directory and
the extraction counter is untouched, but the output directory itself has
been created: mkdir(parents=True, exist_ok=True) runs before the
download, so the directory exists in the final world even when it was
absent before the call; only a successful run appends extracted
entries. -/
theorem fetch_failure_output_contents_untouched (env : Env)
    (version platformTriplet versionsFile : String) (lines : List String) (w : World)
    (e a : String)
    (h : (download_aic_sdk env version platformTriplet versionsFile lines w).1
        = Except.error (FetchErr.integrity e a) ∨
      (download_aic_sdk env version platformTriplet versionsFile lines w).1
        = Except.error (FetchErr.unsupportedFormat a)) :
    (download_aic_sdk env version platformTriplet versionsFile lines w).2.outDirFiles
      = w.outDirFiles ∧
    (download_aic_sdk env version platformTriplet versionsFile lines w).2.extractCount
      = w.extractCount ∧
    (download_aic_sdk env version platformTriplet versionsFile lines w).2.outDirExists
      = true := by
  cases hload : load_platform_config lines with
  | error pe =>
    obtain ⟨n, e0⟩ := pe
    simp only [download_aic_sdk, hload] at h
    rcases h with h | h <;> cases h
  | ok config =>
    cases hv : dictGet? version config with
    | none =>
      simp only [download_aic_sdk, hload, hv] at h
      rcases h with h | h <;> cases h
    | some inner =>
      cases hp : dictGet? platformTriplet inner with
      | none =>
        simp only [download_aic_sdk, hload, hv, hp] at h
        rcases h with h | h <;> cases h
      | some pe =>
        obtain ⟨ext, hash⟩ := pe
        simp only [download_aic_sdk, hload, hv, hp, withTempDir] at h ⊢
        have herr : ∃ err, (fetchBody env (buildUrl version platformTriplet ext)
            (buildFilename platformTriplet version ext) hash
            { outDirExists := true, outDirFiles := w.outDirFiles,
              tempLive := w.tempLive + 1, downloadCount := w.downloadCount,
              extractCount := w.extractCount }).1 = Except.error err := by
          rcases h with h | h
          · exact ⟨_, h⟩
          · exact ⟨_, h⟩
        obtain ⟨err, herr⟩ := herr
        obtain ⟨hf1, hf2, hf3⟩ := fetchBody_error_world env _ _ _ _ err herr
        exact ⟨hf1, hf2, hf3⟩

/-- Concrete environment for the C3 theorems: the downloaded byte has
modelled digest bad, while the configuration expects good. -/
def envC3 : Env :=
  { sha256hex := fun _ => "bad", net := fun _ => Except.ok [104],
    archiveEntries := fun _ => ["lib.a"] }

/-- Counterexample to C3 as stated: with an initially absent output
directory and a checksum mismatch, fetch fails with IntegrityError yet
the output directory exists afterwards, because mkdir runs before the
download; the directory is not left exactly as it was before the call. -/
theorem fetch_failure_output_dir_created_counterexample :
    (⟨false, [], 0, 0, 0⟩ : World).outDirExists = false ∧
    (download_aic_sdk envC3 "1.0.0" "x" "VERSIONS.txt" ["1.0.0\tx, tar.gz, good"]
      ⟨false, [], 0, 0, 0⟩).1 = Except.error (FetchErr.integrity "good" "bad") ∧
    (download_aic_sdk envC3 "1.0.0" "x" "VERSIONS.txt" ["1.0.0\tx, tar.gz, good"]
      ⟨false, [], 0, 0, 0⟩).2.outDirExists = true :=
  ⟨rfl, rfl, rfl⟩

/-- Witness for the amended C3 at a concrete integrity failure: the
pre-existing entry of the output directory is untouched, nothing was
extracted, and the directory exists. -/
theorem fetch_failure_output_contents_untouched_witness :
    (download_aic_sdk envC3 "2.0.0" "y" "VERSIONS.txt" ["2.0.0\ty, tar.gz, good"]
      ⟨false, ["keep"], 0, 0, 0⟩).2.outDirFiles = ["keep"] ∧
    (download_aic_sdk envC3 "2.0.0" "y" "VERSIONS.txt" ["2.0.0\ty, tar.gz, good"]
      ⟨false, ["keep"], 0, 0, 0⟩).2.extractCount = 0 ∧
    (download_aic_sdk envC3 "2.0.0" "y" "VERSIONS.txt" ["2.0.0\ty, tar.gz, good"]
      ⟨false, ["keep"], 0, 0, 0⟩).2.outDirExists = true :=
  fetch_failure_output_contents_untouched envC3 "2.0.0" "y" "VERSIONS.txt"
    ["2.0.0\ty, tar.gz, good"] ⟨false, ["keep"], 0, 0, 0⟩ "good" "bad" (Or.inl rfl)

/-- Counterexample to C2 as stated: at version 1.0.0, platform
x86_64-unknown-linux-gnu, extension tar.gz, the constructed URL is the
one below, whose final path segment starts with the fixed prefix
aic-sdk-, not with the repo path segment aic-sdk-c that appears earlier
in the URL. -/
theorem url_repo_segment_counterexample :
    buildUrl "1.0.0" "x86_64-unknown-linux-gnu" "tar.gz"
      = "https://github.com/ai-coustics/aic-sdk-c/releases/download/1.0.0/aic-sdk-x86_64-unknown-linux-gnu-1.0.0.tar.gz" ∧
    ¬ "aic-sdk-c".toList
      <+: (buildFilename "x86_64-unknown-linux-gnu" "1.0.0" "tar.gz").toList :=
  ⟨rfl, by decide⟩

/-- C2 amended: the URL always follows the fixed template with host
github.com, org ai-coustics, repo path segment aic-sdk-c, and archive
filename aic-sdk-<platform>-<version>.<ext>; the filename begins with
the fixed prefix aic-sdk-, which differs from the repo segment by its
trailing -c. -/
theorem url_fixed_template (version platformTriplet archiveExt : String) :
    buildUrl version platformTriplet archiveExt
      = "https://github.com/ai-coustics/aic-sdk-c/releases/download/" ++ version ++ "/"
        ++ ("aic-sdk-" ++ platformTriplet ++ "-" ++ version ++ "." ++ archiveExt) ∧
    "aic-sdk-".toList <+: (buildFilename platformTriplet version archiveExt).toList := by
  constructor
  · rfl
  · refine ⟨(platformTriplet ++ "-" ++ version ++ "." ++ archiveExt).toList, ?_⟩
    simp [buildFilename, strToList_append, List.append_assoc]

theorem chunksAux_flatten_aux (k n : Nat) :
    ∀ (l : List UInt8), l.length ≤ n → (chunksAux k l).flatten = l := by
  induction n with
  | zero =>
    intro l h
    cases l with
    | nil => simp [chunksAux]
    | cons c cs =>
      simp only [List.length_cons] at h
      omega
  | succ n ih =>
    intro l h
    cases l with
    | nil => simp [chunksAux]
    | cons c cs =>
      rw [chunksAux]
      simp only [List.flatten_cons]
      rw [ih (cs.drop k) (by simp only [List.length_drop]; simp only [List.length_cons] at h; omega)]
      simp

theorem chunksAux_flatten (k : Nat) (l : List UInt8) : (chunksAux k l).flatten = l :=
  chunksAux_flatten_aux k l.length l (Nat.le_refl _)

theorem foldl_hashUpdate_flatten {σ : Type} (step : σ → UInt8 → σ) (init : σ)
    (cs : List (List UInt8)) :
    cs.foldl (hashUpdate step) init = cs.flatten.foldl step init := by
  induction cs generalizing init with
  | nil => rfl
  | cons c cs ih => simp [hashUpdate, List.foldl_append, ih, List.flatten_cons]

/-- C10: the incremental digest of calculate_file_hash, reading the file
in 4096-byte chunks and updating the running state, equals the one-pass
digest of the whole content, and more generally any chunking whose
concatenation is the content yields the same digest: the result is
independent of the chunk boundaries. -/
theorem calculate_file_hash_eq_onePass {σ : Type} (step : σ → UInt8 → σ)
    (hexdigest : σ → String) (init : σ) (content : List UInt8) :
    calculate_file_hash step hexdigest init content
      = sha256OnePass step hexdigest init content ∧
    ∀ cs : List (List UInt8), cs.flatten = content →
      hexdigest (cs.foldl (hashUpdate step) init)
        = sha256OnePass step hexdigest init content := by
  constructor
  · rw [calculate_file_hash, sha256OnePass, foldl_hashUpdate_flatten, readChunks,
      chunksAux_flatten]
  · intro cs hcs
    rw [sha256OnePass, foldl_hashUpdate_flatten, hcs]

/-- Witness for C10 at a concrete digest state machine and content, with
an uneven chunking. -/
theorem calculate_file_hash_eq_onePass_witness :
    calculate_file_hash (fun s b => s * 33 + b.toNat) toString 5 [1, 2, 3]
      = sha256OnePass (fun s b => s * 33 + b.toNat) toString 5 [1, 2, 3] ∧
    toString (([[1], [2, 3]] : List (List UInt8)).foldl
        (hashUpdate (fun s b => s * 33 + b.toNat)) 5)
      = sha256OnePass (fun s b => s * 33 + b.toNat) toString 5 [1, 2, 3] :=
  ⟨(calculate_file_hash_eq_onePass (fun s b => s * 33 + b.toNat) toString 5 [1, 2, 3]).1,
   (calculate_file_hash_eq_onePass (fun s b => s * 33 + b.toNat) toString 5 [1, 2, 3]).2
     [[1], [2, 3]] rfl⟩

end AicGn
